import Mathlib

/-!
Verification of the AST-assembly layer of parserlib (src/include/ast.hpp).

The embedding models:
* the reconstruction stack (`ast_stack`, a vector of `ast_node *`; here a
  list whose head is the vector's back, i.e. the stack top);
* `ast_ptr<T>::construct` (ast.hpp lines 197-215), with `dynamic_cast`
  modelled by a derives-from relation `D` on runtime-type tags;
* `ast_container::construct` and the member list (declared at ast.hpp
  lines 75-88; body in the missing ast.cpp, modelled from the spec);
* `ast<T>::_parse_proc` (ast.hpp lines 237-242);
* the construction registry (`ast_member::_init`, body missing, modelled
  from the spec as a LIFO stack of active containers);
* `parse` (declared at ast.hpp line 255, body missing, modelled from the
  spec);
* a small heap model for the ownership/deep-copy semantics of
  `ast_ptr<T>` copy construction and assignment (ast.hpp lines 131-169).
-/

/-- a pointer to a live AST node on the reconstruction stack: its address
    (object identity) and the runtime type tag of the pointee, which is what
    `dynamic_cast` inspects. -/
structure ANodePtr where
  addr : Nat
  rtty : Nat
deriving DecidableEq, Repr

/-- type of AST node stack (`typedef std::vector<ast_node *> ast_stack`).
    The list head is the vector's back, i.e. the top of the stack. -/
abbrev ast_stack := List ANodePtr

/-- outcome of running a construct step: normal completion, a thrown
    `std::logic_error` with its message, or a failed `assert`. -/
inductive COutcome where
  | ok
  | thrown (msg : String)
  | assertFail
deriving DecidableEq, Repr

/-- state threaded through `ast_ptr<T>::construct`: the member's owned
    pointer `m_ptr`, the shared stack, and the addresses passed to
    `delete` so far (the delete side effect made observable). -/
structure PtrState where
  m_ptr : Option ANodePtr
  st : ast_stack
  deleted : List Nat
deriving DecidableEq, Repr

/-- embedding of `ast_ptr<T>::construct` (ast.hpp lines 197-215).
    `D r t` is true when runtime type `r` is `t` or derived from `t`, so
    `dynamic_cast<T *>(node)` succeeds exactly when `D node.rtty t`.
    Source order: `assert(!st.empty())`; `node = st.back()`;
    `obj = dynamic_cast<T *>(node)`; `if (!obj) throw logic_error`;
    `st.pop_back()`; `delete m_ptr`; `m_ptr = obj`. -/
def ast_ptr.construct (D : Nat → Nat → Bool) (t : Nat) (s : PtrState) :
    COutcome × PtrState :=
  match s.st with
  | [] => (COutcome.assertFail, s)
  | node :: rest =>
    if D node.rtty t then
      (COutcome.ok,
       ⟨some node, rest, s.deleted ++ (s.m_ptr.map (fun p => p.addr)).toList⟩)
    else
      (COutcome.thrown "invalid AST node", s)

/-- one registered member of a container: the element type tag `t` of its
    `ast_ptr<T>` and its currently owned pointer. -/
structure Member where
  t : Nat
  m_ptr : Option ANodePtr
deriving DecidableEq, Repr

/-- runs `construct(st)` on a list of members in the order given, stopping
    when an exception propagates; returns the outcome, the updated members
    (in the same order), the final stack and the delete log. -/
def constructMembers (D : Nat → Nat → Bool) :
    List Member → ast_stack → List Nat →
    COutcome × List Member × ast_stack × List Nat
  | [], st, del => (COutcome.ok, [], st, del)
  | m :: ms, st, del =>
    match ast_ptr.construct D m.t ⟨m.m_ptr, st, del⟩ with
    | (COutcome.ok, s1) =>
      let r := constructMembers D ms s1.st s1.deleted
      (r.1, ⟨m.t, s1.m_ptr⟩ :: r.2.1, r.2.2.1, r.2.2.2)
    | (o, s1) => (o, ⟨m.t, s1.m_ptr⟩ :: ms, s1.st, s1.deleted)

/-- Modelled from the spec: the body of
    `ast_container::construct(b, e, st)` lives in the repository's missing
    ast.cpp; only its declaration and doc comment are in ast.hpp (lines
    75-88: "The members are asked to construct themselves in reverse
    order").  Per the spec it iterates its member list in reverse
    registration order and calls each member's `construct(stack)`.
    `members` is the member list in registration order. -/
def ast_container.construct (D : Nat → Nat → Bool) (members : List Member)
    (st : ast_stack) (del : List Nat) :
    COutcome × List Member × ast_stack × List Nat :=
  let r := constructMembers D members.reverse st del
  (r.1, r.2.1.reverse, r.2.2.1, r.2.2.2)

/-- embedding of `ast<T>::_parse_proc` (ast.hpp lines 237-242) for a node
    type `T` that is an `ast_container` with `ast_ptr` fields of element
    types `types` (in declaration order): `T *obj = new T;` default
    constructs the fields (each `ast_ptr` starts null and self-registers in
    declaration order); `obj->construct(b, e, *st)`; `st->push_back(obj)`.
    `newAddr`/`tT` are the fresh object's address and runtime type. -/
def ast._parse_proc (D : Nat → Nat → Bool) (types : List Nat) (tT : Nat)
    (newAddr : Nat) (st : ast_stack) : COutcome × ast_stack × List Nat :=
  let ms := types.map (fun t => Member.mk t none)
  let r := ast_container.construct D ms st []
  match r.1 with
  | COutcome.ok => (COutcome.ok, ANodePtr.mk newAddr tT :: r.2.2.1, r.2.2.2)
  | o => (o, r.2.2.1, r.2.2.2)

/-- outcome of the out-of-scope grammar engine on one input: whether the
    root rule matched, the reconstruction stack it left behind, and the
    errors it recorded in the error list. -/
structure EngineResult where
  success : Bool
  st : ast_stack
  errors : List String

/-- Modelled from the spec: the body of `parse(i, g, ws, el)` (declared at
    ast.hpp line 255) lives in the missing ast.cpp.  Per the spec it runs
    the grammar engine over the input; on success it returns ownership of
    the single remaining stack node (asserting the stack holds exactly one
    element), and on failure it returns null with the recorded errors in
    the error list. -/
def parse (r : EngineResult) : COutcome × Option ANodePtr × List String :=
  if r.success then
    match r.st with
    | [n] => (COutcome.ok, some n, r.errors)
    | _ => (COutcome.assertFail, none, r.errors)
  else
    (COutcome.ok, none, r.errors)

/-- a construction plan for the fields of a container type, in declaration
    order: each field is either an `ast_member` (identified by a tag) or a
    nested `ast_container` value with its own field list. -/
inductive FieldPlan where
  | member (id : Nat)
  | container (sub : List FieldPlan)

/-- state of the construction registry: the LIFO stack of containers
    currently under construction (head = most recently entered), the log of
    registrations `(member id, container id)` in the order `_init` ran, and
    the next fresh container id. -/
structure BuildState where
  registry : List Nat
  log : List (Nat × Nat)
  next : Nat

/-- Modelled from the spec: the bodies of `ast_container()`, the copy
    constructor and `ast_member::_init` live in the missing ast.cpp; ast.hpp
    lines 47-57 and 117-119 only declare them.  Per the spec a container
    pushes itself onto the construction-registry stack before any field is
    constructed and pops itself off after the last field finishes, and
    `_init` registers the member to the container on top of the registry.
    `buildFields fs s` constructs the fields `fs` in order under state `s`. -/
def buildFields : List FieldPlan → BuildState → BuildState
  | [], s => s
  | FieldPlan.member m :: fs, s =>
    buildFields fs ⟨s.registry, s.log ++ [(m, s.registry.headD 0)], s.next⟩
  | FieldPlan.container sub :: fs, s =>
    let inner := buildFields sub ⟨s.next :: s.registry, s.log, s.next + 1⟩
    buildFields fs ⟨inner.registry.tail, inner.log, inner.next⟩

/-- Modelled from the spec: entering construction of a container with field
    plan `fs` pushes the fresh container id onto the registry, constructs
    the fields in declaration order, then pops itself off. -/
def buildContainer (fs : List FieldPlan) (s : BuildState) : BuildState :=
  let inner := buildFields fs ⟨s.next :: s.registry, s.log, s.next + 1⟩
  ⟨inner.registry.tail, inner.log, inner.next⟩

/-- the ids of the fields of a plan that are direct members (not nested
    containers). -/
def directMembers (fs : List FieldPlan) : List Nat :=
  fs.filterMap (fun f => match f with
    | FieldPlan.member m => some m
    | FieldPlan.container _ => none)

/-- observable state of an `ast_container` for the assignment claims: its
    member list `m_members` (ast.hpp line 85), as registered ids. -/
structure ContainerModel where
  m_members : List Nat
deriving DecidableEq

/-- embedding of `ast_container::operator=` (ast.hpp lines 64-66): the body
    is `return *this;` — nothing is copied and no registration runs, so the
    target container and the registry state are returned unchanged. -/
def ast_container.assign (self _src : ContainerModel) (s : BuildState) :
    ContainerModel × BuildState :=
  (self, s)

/-- embedding of `ast_member::operator=` (ast.hpp lines 108-110): the body
    is `return *this;` — `_init` is not called, so the registry state is
    unchanged. -/
def ast_member.assign (s : BuildState) : BuildState :=
  s

/-- a heap-allocated node value for the ownership claims: the whole owned
    subtree as a value (runtime type tag plus children), so that cloning it
    is exactly the full recursive deep copy `new T(*src)` performs. -/
inductive NodeTree where
  | node (rtty : Nat) (children : List NodeTree)

/-- the heap: the next fresh address and the association list of live
    objects (address, stored value). -/
structure Heap where
  next : Nat
  mem : List (Nat × NodeTree)

/-- dereferencing address `a`: the stored value if `a` is live, `none` if
    it has been freed or never allocated (a dangling read). -/
def Heap.read (h : Heap) (a : Nat) : Option NodeTree :=
  (h.mem.find? (fun p => p.1 == a)).map (fun p => p.2)

/-- `new T(v)`: allocates a fresh address holding `v`. -/
def Heap.alloc (h : Heap) (v : NodeTree) : Heap × Nat :=
  (⟨h.next + 1, (h.next, v) :: h.mem⟩, h.next)

/-- `delete p`: a no-op on a null pointer, otherwise removes the object at
    that address from the heap. -/
def Heap.free (h : Heap) : Option Nat → Heap
  | none => h
  | some a => ⟨h.next, h.mem.filter (fun p => p.1 != a)⟩

/-- well-formedness: every live address is below the fresh-address bound. -/
def Heap.WF (h : Heap) : Prop :=
  ∀ p ∈ h.mem, p.1 < h.next

/-- embedding of the `ast_ptr<T>` copy constructor (ast.hpp lines 138-141):
    `m_ptr(src.m_ptr ? new T(*src.m_ptr) : 0)`.  Dereferencing a freed
    source is undefined behavior, reported as an error. -/
def ast_ptr.copyCtor (h : Heap) (src : Option Nat) :
    Except String (Heap × Option Nat) :=
  match src with
  | none => Except.ok (h, none)
  | some a =>
    match h.read a with
    | none => Except.error "use after free"
    | some v =>
      let r := h.alloc v
      Except.ok (r.1, some r.2)

/-- embedding of `ast_ptr<T>::operator=(const ast_ptr<T> &src)` (ast.hpp
    lines 165-169): `delete m_ptr; m_ptr = src.m_ptr ? new T(*src.m_ptr) : 0;`.
    `self` is this object's `m_ptr` before the call and `src` is the
    source's `m_ptr`; when the source aliases `*this` they are the same
    address.  The source pointer field is read after the delete, so
    dereferencing it is undefined behavior if the delete freed it. -/
def ast_ptr.assignFromPtr (h : Heap) (self src : Option Nat) :
    Except String (Heap × Option Nat) :=
  let h1 := h.free self
  match src with
  | none => Except.ok (h1, none)
  | some a =>
    match h1.read a with
    | none => Except.error "use after free"
    | some v =>
      let r := h1.alloc v
      Except.ok (r.1, some r.2)

/-- embedding of `ast_ptr<T>::operator=(const T *obj)` (ast.hpp lines
    154-158): `delete m_ptr; m_ptr = obj ? new T(*obj) : 0;`.  Same shape
    as the other assignment operator, with `obj` the raw source pointer. -/
def ast_ptr.assignFromRaw (h : Heap) (self obj : Option Nat) :
    Except String (Heap × Option Nat) :=
  let h1 := h.free self
  match obj with
  | none => Except.ok (h1, none)
  | some a =>
    match h1.read a with
    | none => Except.error "use after free"
    | some v =>
      let r := h1.alloc v
      Except.ok (r.1, some r.2)

/-- C1: with fields declared [A, B, C] (each an `ast_ptr`, freshly default
    constructed) and a stack whose elements bottom-to-top are
    [builtA, builtB, builtC], `ast_container::construct` iterates the member
    list in reverse registration order, so afterwards field A owns builtA,
    field B owns builtB and field C owns builtC, and the rest of the stack
    is untouched. -/
theorem C1_reverse_iteration_pairs_fields
    (D : Nat → Nat → Bool) (tA tB tC : Nat) (builtA builtB builtC : ANodePtr)
    (rest : ast_stack)
    (hA : D builtA.rtty tA = true) (hB : D builtB.rtty tB = true)
    (hC : D builtC.rtty tC = true) :
    ast_container.construct D [⟨tA, none⟩, ⟨tB, none⟩, ⟨tC, none⟩]
      (builtC :: builtB :: builtA :: rest) [] =
    (COutcome.ok,
     [⟨tA, some builtA⟩, ⟨tB, some builtB⟩, ⟨tC, some builtC⟩], rest, []) := by
  simp [ast_container.construct, constructMembers, ast_ptr.construct, hA, hB, hC]

/-- witness for C1 at a concrete three-field container and stack. -/
theorem C1_reverse_iteration_pairs_fields_witness :
    ast_container.construct (fun r t => r == t)
      [⟨1, none⟩, ⟨2, none⟩, ⟨3, none⟩]
      [⟨12, 3⟩, ⟨11, 2⟩, ⟨10, 1⟩] [] =
    (COutcome.ok,
     [⟨1, some ⟨10, 1⟩⟩, ⟨2, some ⟨11, 2⟩⟩, ⟨3, some ⟨12, 3⟩⟩], [], []) :=
  C1_reverse_iteration_pairs_fields (fun r t => r == t) 1 2 3
    ⟨10, 1⟩ ⟨11, 2⟩ ⟨12, 3⟩ [] (by decide) (by decide) (by decide)

/-- C2 counterexample: when the top node's runtime type (tag 2) is not
    compatible with T (tag 1), `ast_ptr<T>::construct` throws
    "invalid AST node" but the stack is NOT popped: the incompatible
    element is still on the stack when the error is raised, because the
    throw at ast.hpp line 207 happens before the `st.pop_back()` at
    line 210. -/
theorem C2_counterexample :
    ast_ptr.construct (fun r t => r == t) 1 ⟨none, [⟨0, 2⟩], []⟩ =
      (COutcome.thrown "invalid AST node", ⟨none, [⟨0, 2⟩], []⟩) := by
  decide

/-- C2 (amended): on a type-incompatible stack top, `ast_ptr<T>::construct`
    raises the construction error and leaves the member, stack and delete
    log entirely unchanged — in particular the incompatible top element has
    NOT been removed when the error is raised. -/
theorem C2_throw_leaves_stack_unpopped
    (D : Nat → Nat → Bool) (t : Nat) (m_ptr : Option ANodePtr)
    (node : ANodePtr) (rest : ast_stack) (del : List Nat)
    (h : D node.rtty t = false) :
    ast_ptr.construct D t ⟨m_ptr, node :: rest, del⟩ =
      (COutcome.thrown "invalid AST node", ⟨m_ptr, node :: rest, del⟩) := by
  simp [ast_ptr.construct, h]

/-- witness for the amended C2 at a concrete incompatible input. -/
theorem C2_throw_leaves_stack_unpopped_witness :
    ast_ptr.construct (fun r t => r == t) 1 ⟨some ⟨5, 1⟩, [⟨0, 2⟩], []⟩ =
      (COutcome.thrown "invalid AST node", ⟨some ⟨5, 1⟩, [⟨0, 2⟩], []⟩) :=
  C2_throw_leaves_stack_unpopped (fun r t => r == t) 1 (some ⟨5, 1⟩)
    ⟨0, 2⟩ [] [] (by decide)

/-- C3: on a stack whose top node is type-compatible with T,
    `ast_ptr<T>::construct` removes exactly that top element, takes
    ownership of it as the member's new value, deletes the previously
    owned object, and leaves the rest of the stack unchanged (the stack
    shrinks by exactly one). -/
theorem C3_construct_claims_top
    (D : Nat → Nat → Bool) (t : Nat) (m_ptr : Option ANodePtr)
    (node : ANodePtr) (rest : ast_stack) (del : List Nat)
    (h : D node.rtty t = true) :
    ast_ptr.construct D t ⟨m_ptr, node :: rest, del⟩ =
      (COutcome.ok,
       ⟨some node, rest, del ++ (m_ptr.map (fun p => p.addr)).toList⟩) ∧
    rest.length + 1 = (node :: rest).length := by
  refine ⟨?_, rfl⟩
  simp [ast_ptr.construct, h]

/-- witness for C3 at a concrete compatible input. -/
theorem C3_construct_claims_top_witness :
    ast_ptr.construct (fun r t => r == t) 1 ⟨some ⟨5, 1⟩, [⟨0, 1⟩, ⟨7, 2⟩], []⟩ =
      (COutcome.ok, ⟨some ⟨0, 1⟩, [⟨7, 2⟩], [5]⟩) ∧
    ([⟨7, 2⟩] : ast_stack).length + 1 = ([⟨0, 1⟩, ⟨7, 2⟩] : ast_stack).length :=
  C3_construct_claims_top (fun r t => r == t) 1 (some ⟨5, 1⟩)
    ⟨0, 1⟩ [⟨7, 2⟩] [] (by decide)

/-- when every member in the list is paired with a type-compatible stack
    node, sequentially constructing the members consumes exactly one stack
    node per member: the members end up owning the paired nodes, the rest
    of the stack is untouched, and the delete log gains exactly the
    previously owned pointers. -/
theorem constructMembers_all_ok (D : Nat → Nat → Bool)
    (ms : List Member) (tops : List ANodePtr) (rest : ast_stack)
    (del : List Nat) (hlen : ms.length = tops.length)
    (hcomp : ∀ p ∈ ms.zip tops, D p.2.rtty p.1.t = true) :
    constructMembers D ms (tops ++ rest) del =
      (COutcome.ok,
       (ms.zip tops).map (fun p => ⟨p.1.t, some p.2⟩), rest,
       del ++ ms.filterMap (fun m => m.m_ptr.map (fun p => p.addr))) := by
  induction ms generalizing tops del with
  | nil =>
    have h0 : tops = [] := by
      cases tops with
      | nil => rfl
      | cons t ts => simp at hlen
    subst h0
    simp [constructMembers]
  | cons m ms ih =>
    cases tops with
    | nil => simp at hlen
    | cons t tops =>
      have hd : D t.rtty m.t = true := hcomp (m, t) (by simp)
      have hlen' : ms.length = tops.length := by simpa using hlen
      have hcomp' : ∀ p ∈ ms.zip tops, D p.2.rtty p.1.t = true := by
        intro p hp
        exact hcomp p (by simp [hp])
      have hrec := ih tops (del ++ (m.m_ptr.map (fun p => p.addr)).toList)
        hlen' hcomp'
      simp [constructMembers, ast_ptr.construct, hd, hrec,
        List.filterMap_cons]
      cases hm : m.m_ptr with
      | none => simp
      | some p => simp [List.append_assoc]

/-- C4: for a node type T whose fields are `ast_ptr`s of element types
    `types` (declaration order) and a stack offering one type-compatible
    node per field, one invocation of the action callback
    (`ast<T>::_parse_proc`: default-construct T, run its construct over the
    matched range, push the instance) succeeds and leaves the stack with
    the new instance on top of the untouched remainder, so its size equals
    (size before) − (number of fields) + 1. -/
theorem C4_parse_proc_stack_delta
    (D : Nat → Nat → Bool) (types : List Nat) (tT newAddr : Nat)
    (tops : List ANodePtr) (rest : ast_stack)
    (hlen : tops.length = types.length)
    (hcomp : ∀ q ∈ types.reverse.zip tops, D q.2.rtty q.1 = true) :
    ast._parse_proc D types tT newAddr (tops ++ rest) =
      (COutcome.ok, ANodePtr.mk newAddr tT :: rest, []) ∧
    (ANodePtr.mk newAddr tT :: rest).length =
      (tops ++ rest).length - types.length + 1 := by
  have hms : (types.map (fun t => Member.mk t none)).reverse =
      types.reverse.map (fun t => Member.mk t none) := by
    simp
  have hlen' : (types.reverse.map (fun t => Member.mk t none)).length =
      tops.length := by simp [hlen]
  have hcomp' : ∀ p ∈ (types.reverse.map (fun t => Member.mk t none)).zip tops,
      D p.2.rtty p.1.t = true := by
    intro p hp
    rw [List.zip_map_left] at hp
    rcases List.mem_map.mp hp with ⟨q, hq, hpq⟩
    subst hpq
    exact hcomp q hq
  have hrec := constructMembers_all_ok D
    (types.reverse.map (fun t => Member.mk t none)) tops rest [] hlen' hcomp'
  have hdel : (types.reverse.map (fun t => Member.mk t none)).filterMap
      (fun m => m.m_ptr.map (fun p => p.addr)) = [] := by
    simp [List.filterMap_map]
  constructor
  · simp only [ast._parse_proc, ast_container.construct]
    rw [hms, hrec]
    simp [hdel]
  · simp only [List.length_cons, List.length_append, hlen]
    omega

/-- witness for C4: a two-field node type built from a three-node stack
    leaves 3 − 2 + 1 = 2 nodes. -/
theorem C4_parse_proc_stack_delta_witness :
    ast._parse_proc (fun r t => r == t) [1, 2] 9 20
      [⟨11, 2⟩, ⟨10, 1⟩, ⟨7, 5⟩] =
      (COutcome.ok, [⟨20, 9⟩, ⟨7, 5⟩], []) ∧
    ([⟨20, 9⟩, ⟨7, 5⟩] : ast_stack).length =
      ([⟨11, 2⟩, ⟨10, 1⟩, ⟨7, 5⟩] : ast_stack).length - [1, 2].length + 1 :=
  C4_parse_proc_stack_delta (fun r t => r == t) [1, 2] 9 20
    [⟨11, 2⟩, ⟨10, 1⟩] [⟨7, 5⟩] (by decide)
    (by intro q hq; fin_cases hq <;> decide)

/-- C9: a container with zero registered members is a pure leaf —
    `ast_container::construct` succeeds, touches neither the stack nor the
    delete log, and reconstructs no children. -/
theorem C9_empty_member_list_noop
    (D : Nat → Nat → Bool) (st : ast_stack) (del : List Nat) :
    ast_container.construct D [] st del = (COutcome.ok, [], st, del) := rfl

/-- constructing a field list leaves the construction registry exactly as
    it was: every nested container pops what it pushed. -/
theorem directMembers_cons_member (m : Nat) (fs : List FieldPlan) :
    directMembers (FieldPlan.member m :: fs) = m :: directMembers fs := by
  simp [directMembers]

theorem directMembers_cons_container (sub fs : List FieldPlan) :
    directMembers (FieldPlan.container sub :: fs) = directMembers fs := by
  simp [directMembers]

/-- constructing a field list leaves the construction registry exactly as
    it was: every nested container pops what it pushed. -/
theorem buildFields_registry : ∀ (fs : List FieldPlan) (s : BuildState),
    (buildFields fs s).registry = s.registry
  | [], s => by rw [buildFields]
  | FieldPlan.member m :: fs, s => by
    rw [buildFields]
    exact buildFields_registry fs _
  | FieldPlan.container sub :: fs, s => by
    simp only [buildFields]
    rw [buildFields_registry fs _]
    simp [buildFields_registry sub _]

/-- constructing a field list only appends to the registration log. -/
theorem buildFields_log_mono : ∀ (fs : List FieldPlan) (s : BuildState),
    ∀ q ∈ s.log, q ∈ (buildFields fs s).log
  | [], s => by
    intro q hq
    rw [buildFields]
    exact hq
  | FieldPlan.member m :: fs, s => by
    intro q hq
    rw [buildFields]
    exact buildFields_log_mono fs _ q (by simp [hq])
  | FieldPlan.container sub :: fs, s => by
    intro q hq
    simp only [buildFields]
    exact buildFields_log_mono fs _ q (buildFields_log_mono sub _ q hq)

/-- every direct member field of a field list registers to the container on
    top of the registry at the moment the list's construction starts. -/
theorem buildFields_registers : ∀ (fs : List FieldPlan) (s : BuildState),
    ∀ m ∈ directMembers fs, (m, s.registry.headD 0) ∈ (buildFields fs s).log
  | [], s => by simp [directMembers]
  | FieldPlan.member m :: fs, s => by
    intro x hx
    rw [directMembers_cons_member] at hx
    rw [buildFields]
    rcases List.mem_cons.mp hx with hx | hx
    · subst hx
      exact buildFields_log_mono fs _ (x, s.registry.headD 0) (by simp)
    · exact buildFields_registers fs _ x hx
  | FieldPlan.container sub :: fs, s => by
    intro x hx
    rw [directMembers_cons_container] at hx
    simp only [buildFields]
    have hreg : (buildFields sub
        ⟨s.next :: s.registry, s.log, s.next + 1⟩).registry =
        s.next :: s.registry := buildFields_registry sub _
    have hmem := buildFields_registers fs
      ⟨(buildFields sub ⟨s.next :: s.registry, s.log, s.next + 1⟩).registry.tail,
       (buildFields sub ⟨s.next :: s.registry, s.log, s.next + 1⟩).log,
       (buildFields sub ⟨s.next :: s.registry, s.log, s.next + 1⟩).next⟩ x hx
    simpa [hreg] using hmem

/-- C6: a container under construction pushes itself onto the registry
    before its fields are constructed and pops itself afterwards, and the
    registry is a LIFO stack of active containers: constructing any field
    list (nested containers included) restores the registry, construction
    of a whole container restores the previously active container, and
    every member constructed directly in the container's window registers
    to exactly that container (id `s.next`, the one pushed). -/
theorem C6_registry_is_lifo (fs : List FieldPlan) (s : BuildState) :
    (buildFields fs s).registry = s.registry ∧
    (buildContainer fs s).registry = s.registry ∧
    ∀ m ∈ directMembers fs, (m, s.next) ∈ (buildContainer fs s).log := by
  refine ⟨buildFields_registry fs s, ?_, ?_⟩
  · show (buildFields fs ⟨s.next :: s.registry, s.log, s.next + 1⟩).registry.tail
      = s.registry
    rw [buildFields_registry fs _]
    rfl
  · intro m hm
    show (m, s.next) ∈
      (buildFields fs ⟨s.next :: s.registry, s.log, s.next + 1⟩).log
    simpa using buildFields_registers fs
      ⟨s.next :: s.registry, s.log, s.next + 1⟩ m hm

/-- witness for C6: a container with a member field, a nested container
    (with its own member) and a trailing member field. -/
theorem C6_registry_is_lifo_witness :
    (buildFields [FieldPlan.member 5,
        FieldPlan.container [FieldPlan.member 6],
        FieldPlan.member 7] ⟨[], [], 0⟩).registry = [] ∧
    (buildContainer [FieldPlan.member 5,
        FieldPlan.container [FieldPlan.member 6],
        FieldPlan.member 7] ⟨[], [], 0⟩).registry = [] ∧
    (5, 0) ∈ (buildContainer [FieldPlan.member 5,
        FieldPlan.container [FieldPlan.member 6],
        FieldPlan.member 7] ⟨[], [], 0⟩).log :=
  ⟨(C6_registry_is_lifo _ _).1, (C6_registry_is_lifo _ _).2.1,
   (C6_registry_is_lifo [FieldPlan.member 5,
        FieldPlan.container [FieldPlan.member 6],
        FieldPlan.member 7] ⟨[], [], 0⟩).2.2 5 (by
      rw [directMembers_cons_member]
      simp)⟩

/-- C7: the assignment operators of `ast_member` and `ast_container` are
    plain `return *this` — they perform no registration, so assigning to a
    member or to a container leaves the target container's member list
    (length and order) and the whole registry state unchanged. -/
theorem C7_assignment_never_registers
    (self src : ContainerModel) (s : BuildState) :
    (ast_container.assign self src s).1.m_members = self.m_members ∧
    (ast_container.assign self src s).1.m_members.length =
      self.m_members.length ∧
    (ast_container.assign self src s).2 = s ∧
    ast_member.assign s = s :=
  ⟨rfl, rfl, rfl, rfl⟩

/-- C8: when the root rule matches and the engine leaves a single node on
    the reconstruction stack, `parse` hands that node to the caller with
    the recorded errors; when the parse fails it returns null and the
    error list holds the recorded errors; and whenever `parse` completes
    normally on a successful match, the stack had exactly one element. -/
theorem C8_parse_returns_root (r : EngineResult) :
    (r.success = true → ∀ n, r.st = [n] →
      parse r = (COutcome.ok, some n, r.errors)) ∧
    (r.success = false → parse r = (COutcome.ok, none, r.errors)) ∧
    (r.success = true → (parse r).1 = COutcome.ok → r.st.length = 1) := by
  refine ⟨?_, ?_, ?_⟩
  · intro hs n hst
    simp [parse, hs, hst]
  · intro hs
    simp [parse, hs]
  · intro hs hok
    cases hst : r.st with
    | nil => simp [parse, hs, hst] at hok
    | cons n tl =>
      cases tl with
      | nil => simp
      | cons m tl2 => simp [parse, hs, hst] at hok

/-- witness for C8: one successful parse leaving one node, and one failed
    parse with recorded errors. -/
theorem C8_parse_returns_root_witness :
    parse ⟨true, [⟨3, 4⟩], []⟩ = (COutcome.ok, some ⟨3, 4⟩, []) ∧
    parse ⟨false, [], ["no match"]⟩ = (COutcome.ok, none, ["no match"]) :=
  ⟨(C8_parse_returns_root ⟨true, [⟨3, 4⟩], []⟩).1 rfl ⟨3, 4⟩ rfl,
   (C8_parse_returns_root ⟨false, [], ["no match"]⟩).2.1 rfl⟩

/-- looking an address up in a list from which exactly that address was
    filtered out finds nothing. -/
theorem find_filter_self (l : List (Nat × NodeTree)) (a : Nat) :
    (l.filter (fun p => p.1 != a)).find? (fun p => p.1 == a) = none := by
  induction l with
  | nil => rfl
  | cons hd tl ih =>
    by_cases hk : hd.1 = a
    · simp [List.filter_cons, hk, ih]
    · simp [List.filter_cons, hk, ih]

/-- filtering out one address does not change the lookup of another. -/
theorem find_filter_other (l : List (Nat × NodeTree)) (a b : Nat)
    (hab : b ≠ a) :
    (l.filter (fun p => p.1 != b)).find? (fun p => p.1 == a) =
      l.find? (fun p => p.1 == a) := by
  induction l with
  | nil => rfl
  | cons hd tl ih =>
    by_cases hk : hd.1 = b
    · have hba : (b == a) = false := by
        simp [hab]
      simp [List.filter_cons, hk, List.find?_cons, ih, hba]
    · by_cases ha : hd.1 = a
      · have hba : ¬a = b := fun hh => hab hh.symm
        simp [List.filter_cons, hk, List.find?_cons, ha, hba]
      · simp [List.filter_cons, hk, List.find?_cons, ha, ih]

/-- reading a just-freed address dangles. -/
theorem Heap.read_free_self (h : Heap) (a : Nat) :
    (h.free (some a)).read a = none := by
  show ((h.mem.filter (fun p => p.1 != a)).find? (fun p => p.1 == a)).map
    (fun p => p.2) = none
  rw [find_filter_self]
  rfl

/-- freeing one address leaves reads of any other address unchanged. -/
theorem Heap.read_free_other (h : Heap) (a b : Nat) (hab : b ≠ a) :
    (h.free (some b)).read a = h.read a := by
  show ((h.mem.filter (fun p => p.1 != b)).find? (fun p => p.1 == a)).map
    (fun p => p.2) = (h.mem.find? (fun p => p.1 == a)).map (fun p => p.2)
  rw [find_filter_other h.mem a b hab]

/-- freeing never changes the fresh-address bound. -/
theorem Heap.free_next (h : Heap) (o : Option Nat) :
    (h.free o).next = h.next := by
  cases o <;> rfl

/-- reading the freshly allocated address yields the stored value. -/
theorem Heap.read_alloc_self (h : Heap) (v : NodeTree) :
    (h.alloc v).1.read h.next = some v := by
  simp [Heap.alloc, Heap.read, List.find?_cons]

/-- allocation does not change reads of other addresses. -/
theorem Heap.read_alloc_other (h : Heap) (v : NodeTree) (a : Nat)
    (ha : a ≠ h.next) :
    (h.alloc v).1.read a = h.read a := by
  have hne : (h.next == a) = false := by
    simp [Ne.symm ha]
  simp [Heap.alloc, Heap.read, List.find?_cons, hne]

/-- on a well-formed heap every readable address is below the bound. -/
theorem Heap.read_lt_next (h : Heap) (hwf : h.WF) (a : Nat) (v : NodeTree)
    (hr : h.read a = some v) : a < h.next := by
  unfold Heap.read at hr
  cases hfind : h.mem.find? (fun p => p.1 == a) with
  | none => rw [hfind] at hr; simp at hr
  | some p =>
    have hp := List.find?_some hfind
    have hmem := List.mem_of_find?_eq_some hfind
    have hpa : p.1 = a := by simpa using hp
    exact hpa ▸ hwf p hmem

/-- C5: `ast_ptr<T>` copy construction, assignment from another
    `ast_ptr<T>` and assignment from a raw `T *` all give the member a
    fresh deep clone of the source pointee made by T's copy operation (the
    whole stored subtree value is duplicated at a fresh address), a null
    source yields a null member, and the result never aliases the source:
    the new object's address differs from the source's, and the source
    object is still intact afterwards. -/
theorem C5_deep_copy_never_aliases (h : Heap) (hwf : h.WF) :
    ast_ptr.copyCtor h none = Except.ok (h, none) ∧
    (∀ self, ast_ptr.assignFromPtr h self none =
      Except.ok (h.free self, none)) ∧
    (∀ self, ast_ptr.assignFromRaw h self none =
      Except.ok (h.free self, none)) ∧
    (∀ a v, h.read a = some v →
      ast_ptr.copyCtor h (some a) = Except.ok ((h.alloc v).1, some h.next) ∧
      h.next ≠ a ∧
      (h.alloc v).1.read h.next = some v ∧
      (h.alloc v).1.read a = some v) ∧
    (∀ a v self, h.read a = some v → self ≠ some a →
      ast_ptr.assignFromPtr h self (some a) =
        Except.ok (((h.free self).alloc v).1, some h.next) ∧
      h.next ≠ a ∧
      ((h.free self).alloc v).1.read h.next = some v ∧
      ((h.free self).alloc v).1.read a = some v) ∧
    (∀ a v self, h.read a = some v → self ≠ some a →
      ast_ptr.assignFromRaw h self (some a) =
        Except.ok (((h.free self).alloc v).1, some h.next) ∧
      h.next ≠ a ∧
      ((h.free self).alloc v).1.read h.next = some v ∧
      ((h.free self).alloc v).1.read a = some v) := by
  have hne : ∀ a v, h.read a = some v → h.next ≠ a := by
    intro a v hr
    exact Nat.ne_of_gt (Heap.read_lt_next h hwf a v hr)
  have hfree : ∀ (a : Nat) (v : NodeTree) (self : Option Nat),
      h.read a = some v → self ≠ some a → (h.free self).read a = some v := by
    intro a v self hr hself
    cases self with
    | none => exact hr
    | some b =>
      have hb : b ≠ a := fun hh => hself (by rw [hh])
      rw [Heap.read_free_other h a b hb]
      exact hr
  refine ⟨rfl, fun self => rfl, fun self => rfl, ?_, ?_, ?_⟩
  · intro a v hr
    refine ⟨by simp [ast_ptr.copyCtor, hr, Heap.alloc], hne a v hr,
      Heap.read_alloc_self h v, ?_⟩
    rw [Heap.read_alloc_other h v a (fun hh => hne a v hr hh.symm)]
    exact hr
  · intro a v self hr hself
    have hra : (h.free self).read a = some v := hfree a v self hr hself
    have hnx : (h.free self).next = h.next := Heap.free_next h self
    refine ⟨?_, hne a v hr, ?_, ?_⟩
    · simp [ast_ptr.assignFromPtr, hra, Heap.alloc, hnx]
    · have := Heap.read_alloc_self (h.free self) v
      rwa [hnx] at this
    · rw [Heap.read_alloc_other (h.free self) v a
        (by rw [hnx]; exact fun hh => hne a v hr hh.symm)]
      exact hra
  · intro a v self hr hself
    have hra : (h.free self).read a = some v := hfree a v self hr hself
    have hnx : (h.free self).next = h.next := Heap.free_next h self
    refine ⟨?_, hne a v hr, ?_, ?_⟩
    · simp [ast_ptr.assignFromRaw, hra, Heap.alloc, hnx]
    · have := Heap.read_alloc_self (h.free self) v
      rwa [hnx] at this
    · rw [Heap.read_alloc_other (h.free self) v a
        (by rw [hnx]; exact fun hh => hne a v hr hh.symm)]
      exact hra

/-- witness for C5: copy-constructing from a live one-object heap clones
    the subtree to the fresh address 1, distinct from the source at 0,
    leaving the source readable. -/
theorem C5_deep_copy_never_aliases_witness :
    ast_ptr.copyCtor ⟨1, [(0, NodeTree.node 7 [])]⟩ (some 0) =
      Except.ok
        ((Heap.alloc ⟨1, [(0, NodeTree.node 7 [])]⟩ (NodeTree.node 7 [])).1,
         some 1) ∧
    (1 : Nat) ≠ 0 ∧
    (Heap.alloc ⟨1, [(0, NodeTree.node 7 [])]⟩ (NodeTree.node 7 [])).1.read 1 =
      some (NodeTree.node 7 []) ∧
    (Heap.alloc ⟨1, [(0, NodeTree.node 7 [])]⟩ (NodeTree.node 7 [])).1.read 0 =
      some (NodeTree.node 7 []) :=
  (C5_deep_copy_never_aliases ⟨1, [(0, NodeTree.node 7 [])]⟩
      (by
        intro p hp
        simp only [List.mem_singleton] at hp
        simp [hp])).2.2.2.1 0 (NodeTree.node 7 []) rfl

/-- C10: the assignment operators have no self-assignment guard: they
    `delete m_ptr` first and only then read the source pointer, so when the
    source is this very member (or its own raw pointer) the clone is made
    from the just-deleted object — a use after free — and the previously
    owned value is not preserved. -/
theorem C10_self_assignment_use_after_free (h : Heap) (a : Nat)
    (v : NodeTree) (_hr : h.read a = some v) :
    ast_ptr.assignFromPtr h (some a) (some a) =
      Except.error "use after free" ∧
    ast_ptr.assignFromRaw h (some a) (some a) =
      Except.error "use after free" := by
  have h1 : (h.free (some a)).read a = none := Heap.read_free_self h a
  constructor
  · simp [ast_ptr.assignFromPtr, h1]
  · simp [ast_ptr.assignFromRaw, h1]

/-- witness for C10 on a one-object heap: self-assignment through either
    operator dereferences the freed object. -/
theorem C10_self_assignment_use_after_free_witness :
    ast_ptr.assignFromPtr ⟨1, [(0, NodeTree.node 7 [])]⟩ (some 0) (some 0) =
      Except.error "use after free" ∧
    ast_ptr.assignFromRaw ⟨1, [(0, NodeTree.node 7 [])]⟩ (some 0) (some 0) =
      Except.error "use after free" :=
  C10_self_assignment_use_after_free ⟨1, [(0, NodeTree.node 7 [])]⟩ 0
    (NodeTree.node 7 []) rfl
